import Mathlib

/-!
Shallow embedding of `timetrack.py`, a personal work-hours tracker.

The event log (SQLite table `times`) is modelled as a `List Event` in
insertion order; SQL queries with `ORDER BY ts ASC` are modelled as
filtering the stably sorted list.  Timestamps are integers (seconds);
calendar date `d` covers the half-open interval
`[dayStart d, dayStart (d+1))` and day `0` is a Monday, so
`weekday d = d % 7` matches Python's `date.weekday()`.

Python `ProgramAbortError` values are distinguished by the message kind
the source raises them with:
  * `haveNotLeft`   – `MSG_ERR_HAVE_NOT_LEFT` (the spec's `AlreadyPresent`)
  * `notWorking`    – `MSG_ERR_NOT_WORKING`
  * `notBreaking`   – `MSG_ERR_NOT_BREAKING`
  * `noArrivalForDate`     – "There is no arrival on …" in `getEntries`
  * `inconsistentSequence` – "Expected arrival/break/leave …" in
    `getWorkTimeForDay`
-/

namespace Timetrack

/-- The four event kinds `ACT_ARRIVE`, `ACT_BREAK`, `ACT_RESUME`,
`ACT_LEAVE`.  `brk` is `ACT_BREAK` (start of a break), `resume` is
`ACT_RESUME` (end of a break). -/
inductive Act where
  | arrive
  | brk
  | resume
  | leave
deriving DecidableEq, Repr

/-- A row of the `times` table: an event kind and a timestamp (seconds). -/
structure Event where
  type : Act
  ts : Int
deriving DecidableEq, Repr

/-- Failure kinds of `ProgramAbortError`. -/
inductive Err where
  | haveNotLeft
  | notWorking
  | notBreaking
  | noArrivalForDate
  | inconsistentSequence
deriving DecidableEq, Repr

/-- Comparison on events used by the SQL `ORDER BY ts ASC`. -/
def tsLe (a b : Event) : Prop := a.ts ≤ b.ts

instance : DecidableRel tsLe := fun a b => Int.decLe a.ts b.ts

instance : IsTotal Event tsLe := ⟨fun a b => Int.le_total a.ts b.ts⟩

instance : IsTrans Event tsLe := ⟨fun _ _ _ h h' => Int.le_trans h h'⟩

/-- The event log sorted ascending by timestamp (SQL `ORDER BY ts ASC`,
with a stable sort as one legal realisation for equal timestamps). -/
def sortByTs (log : List Event) : List Event :=
  List.insertionSort tsLe log

/-- Local midnight of calendar day `d`, as a timestamp. -/
def dayStart (d : Int) : Int := d * 86400

/-- Python's `date.weekday()`: 0 = Monday … 6 = Sunday (day 0 is a Monday). -/
def weekday (d : Int) : Int := d % 7

/-- Source: `addEntry`: `INSERT INTO times (type, ts) VALUES (?, ?)`. -/
def addEntry (log : List Event) (type : Act) (ts : Int) : List Event :=
  log ++ [⟨type, ts⟩]

/-- Source: `getLastType`: `SELECT type FROM times ORDER BY ts DESC LIMIT 1`. -/
def getLastType (log : List Event) : Option Act :=
  ((sortByTs log).getLast?).map (·.type)

/-- Source: `getLastTime`: `SELECT ts FROM times ORDER BY ts DESC LIMIT 1`. -/
def getLastTime (log : List Event) : Option Int :=
  ((sortByTs log).getLast?).map (·.ts)

/-- Source: `startTracking` (command `morning`): record the arrival, unless the
last event shows the user has not left. On rejection the log is returned
unchanged (the Python exception aborts before any `INSERT`). -/
def startTracking (log : List Event) (now : Int) :
    List Event × Except Err Unit :=
  let lastType := getLastType log
  if lastType ≠ none ∧ lastType ≠ some Act.leave then
    (log, .error .haveNotLeft)
  else
    (addEntry log .arrive now, .ok ())

/-- Source: `suspendTracking` (command `break`): record the start of a break. -/
def suspendTracking (log : List Event) (now : Int) :
    List Event × Except Err Unit :=
  let lastType := getLastType log
  if ¬(lastType = some Act.arrive ∨ lastType = some Act.resume) then
    (log, .error .notWorking)
  else
    (addEntry log .brk now, .ok ())

/-- Source: `resumeTracking` (commands `resume`/`continue`): record the end of a
break. -/
def resumeTracking (log : List Event) (now : Int) :
    List Event × Except Err Unit :=
  let lastType := getLastType log
  if lastType ≠ some Act.brk then
    (log, .error .notBreaking)
  else
    (addEntry log .resume now, .ok ())

/-- Source: `endTracking` (command `closing`): record the departure. -/
def endTracking (log : List Event) (now : Int) :
    List Event × Except Err Unit :=
  let lastType := getLastType log
  if ¬(lastType = some Act.arrive ∨ lastType = some Act.resume) then
    (log, .error .notWorking)
  else
    (addEntry log .leave now, .ok ())

/-- First query of `getEntries`: the earliest `arrive` event of day `d`
(`SELECT ts … WHERE type = 'arrive' AND ts >= D AND ts < D+1
ORDER BY ts ASC LIMIT 1`). -/
def firstArrival (log : List Event) (d : Int) : Option Event :=
  ((sortByTs log).filter (fun e =>
    decide (e.type = Act.arrive ∧ dayStart d ≤ e.ts ∧
      e.ts < dayStart (d + 1)))).head?

/-- Source: `getEntries`: fail with `noArrivalForDate` when day `d` has no
arrival; otherwise return all events with
`startTime <= ts AND ts <= endTime` (note the inclusive upper bound in
the source's second query), ascending by timestamp. -/
def getEntries (log : List Event) (d : Int) : Except Err (List Event) :=
  match firstArrival log d with
  | none => .error .noArrivalForDate
  | some res =>
    let startTime := res.ts
    let endTime := dayStart (d + 1)
    .ok ((sortByTs log).filter (fun e =>
      decide (startTime ≤ e.ts ∧ e.ts ≤ endTime)))

/-- The replay loop of `getWorkTimeForDay`: `arrival` is the open-interval
cursor, the integer accumulates `summaryTime` in seconds. -/
def replayGo (arrival : Option Int) (summary : Int) :
    List Event → Except Err (Option Int × Int)
  | [] => .ok (arrival, summary)
  | e :: rest =>
    match arrival with
    | none =>
      if e.type = Act.arrive ∨ e.type = Act.resume then
        replayGo (some e.ts) summary rest
      else
        .error .inconsistentSequence
    | some a =>
      if e.type = Act.brk ∨ e.type = Act.leave then
        replayGo none (summary + (e.ts - a)) rest
      else
        .error .inconsistentSequence

/-- Source: `getWorkTimeForDay`: replay a day's events into work intervals; an
interval still open at the end is closed with `now` and reported through
the boolean (`arrival is not None`). -/
def getWorkTimeForDay (log : List Event) (now : Int) (d : Int) :
    Except Err (Bool × Int) :=
  match getEntries log d with
  | .error e => .error e
  | .ok entries =>
    match replayGo none 0 entries with
    | .error e => .error e
    | .ok (arrival, summary) =>
      match arrival with
      | some a => .ok (true, summary + (now - a))
      | none => .ok (false, summary)

/-- The day report assembled by `dayStatistics`. -/
structure DayReport where
  date : Int
  rows : List Event
  currentlyPresent : Bool
  totalWorked : Int
deriving DecidableEq, Repr

/-- Source: `dayStatistics`: list the entries of `today + offset`, then report
presence and total.  The source calls `getWorkTimeForDay(con)` without a
date argument, so the presence flag and the total are computed for the
default date `today`, not for `targetDay`. -/
def dayStatistics (log : List Event) (now : Int) (today : Int)
    (offset : Int) : Except Err DayReport :=
  let targetDay := today + offset
  match getEntries log targetDay with
  | .error e => .error e
  | .ok rows =>
    match getWorkTimeForDay log now today with
    | .error e => .error e
    | .ok (currentlyHere, totalTime) =>
      .ok ⟨targetDay, rows, currentlyHere, totalTime⟩

/-- Source: `WEEK_HOURS = 40`. -/
def WEEK_HOURS : Int := 40

/-- Source: `dailyHours = timedelta(hours=float(WEEK_HOURS) / 5.0)`, in seconds
(exact: 40 h / 5 = 8 h = 28800 s). -/
def dailyHours : Int := WEEK_HOURS * 3600 / 5

/-- One printed row of the week table: a worked day with its total and
signed delta against the daily quota, or the blank `-` row of an absent
weekday. -/
inductive Row where
  | day (date : Int) (worked : Int) (delta : Int)
  | absent (date : Int)
deriving DecidableEq, Repr

/-- The mutable state of the `while current < endOfWeek` loop. -/
structure LoopState where
  daysSoFar : Nat
  weekTotal : Int
  extraHours : Int
  currentlyHere : Bool
  rows : List Row
deriving DecidableEq, Repr

/-- One iteration of the week loop: the `try` block on success, the
`except ProgramAbortError` handler (which catches every failure kind) on
error. -/
def weekStep (log : List Event) (now : Int) (st : LoopState)
    (current : Int) : LoopState :=
  match getWorkTimeForDay log now current with
  | .ok (here, timeForDay) =>
    { daysSoFar := st.daysSoFar + 1
      weekTotal := st.weekTotal + timeForDay
      extraHours := st.extraHours + (timeForDay - dailyHours)
      currentlyHere := here
      rows := st.rows ++ [.day current timeForDay (timeForDay - dailyHours)] }
  | .error _ =>
    if weekday current < 5 then
      { st with rows := st.rows ++ [.absent current] }
    else
      st

/-- Source: `startOfWeek = today - timedelta(days=today.weekday()) +
timedelta(weeks=offset)`. -/
def startOfWeek (today offset : Int) : Int :=
  today - weekday today + 7 * offset

/-- Source: `endOfWeek = min(today + 1, startOfWeek + 1 week)`. -/
def endOfWeek (today offset : Int) : Int :=
  min (today + 1) (startOfWeek today offset + 7)

/-- The dates visited by `while current < endOfWeek: … current += 1 day`. -/
def weekDates (s e : Int) : List Int :=
  (List.range (e - s).toNat).map (fun i => s + (i : Int))

/-- The structured facts of the week report. -/
structure WeekReport where
  rows : List Row
  daysSoFar : Nat
  weekTotal : Int
  extraHours : Int
  currentlyHere : Bool
  expectedSoFar : Option Int
  remaining : Option Int
  remainingPerDay : Option Int
deriving DecidableEq, Repr

/-- The summary lines printed after the week loop from the final loop
state: the `Expected` figure when `daysSoFar < 5`, and the
`Remaining`/`Daily` section under its guards. -/
def weekSummary (st : LoopState) : WeekReport :=
  let expectedSoFar : Option Int :=
    if st.daysSoFar < 5 then some (dailyHours * (st.daysSoFar : Int)) else none
  if st.daysSoFar < 5 ∨ (st.daysSoFar = 5 ∧ st.currentlyHere = true) then
    let remaining := WEEK_HOURS * 3600 - st.weekTotal
    if st.daysSoFar < 4 then
      ⟨st.rows, st.daysSoFar, st.weekTotal, st.extraHours, st.currentlyHere,
        expectedSoFar, some remaining,
        some (remaining / (5 - (st.daysSoFar : Int)))⟩
    else
      ⟨st.rows, st.daysSoFar, st.weekTotal, st.extraHours, st.currentlyHere,
        expectedSoFar, some remaining, none⟩
  else
    ⟨st.rows, st.daysSoFar, st.weekTotal, st.extraHours, st.currentlyHere,
      expectedSoFar, none, none⟩

/-- Source: `weekStatistics`: run the day aggregation over each date of the week
window and assemble the summary. -/
def weekStatistics (log : List Event) (now : Int) (today : Int)
    (offset : Int) : WeekReport :=
  let st := (weekDates (startOfWeek today offset)
      (endOfWeek today offset)).foldl (weekStep log now)
      ⟨0, 0, 0, false, []⟩
  weekSummary st

/-! ## Spec-side notions used for refinement claims -/

/-- From the spec's words (§8, break cycles): the day events formed by a
number of correctly paired (BreakStart, BreakEnd) pairs. -/
def pairedBreaks : List (Int × Int) → List Event
  | [] => []
  | (b, e) :: rest => ⟨Act.brk, b⟩ :: ⟨Act.resume, e⟩ :: pairedBreaks rest

/-- From the spec's words (§4.2): the sum of the closed work intervals of
a day `Arrive a, (BreakStart b, BreakEnd e)…, Leave l`, with every break
span excluded. -/
def workSum : Int → List (Int × Int) → Int → Int
  | a, [], l => l - a
  | a, (b, e) :: rest, l => (b - a) + workSum e rest l

/-- From the spec's words (§4.2 step 3): the alternating-class condition
of the replay — when no interval is open the event must be of the opening
class (`arrive`/`resume`), when one is open it must be of the closing
class (`brk`/`leave`).  `consistentFrom opened entries = false` says some
event has the wrong class at its replay position. -/
def consistentFrom : Bool → List Event → Bool
  | _, [] => true
  | false, e :: r =>
    (e.type == Act.arrive || e.type == Act.resume) && consistentFrom true r
  | true, e :: r =>
    (e.type == Act.brk || e.type == Act.leave) && consistentFrom false r

/-! ## Helper lemmas -/

/-- Replaying correctly paired breaks followed by a final leave closes
every interval and accumulates exactly the closed work intervals. -/
theorem replayGo_closed (pairs : List (Int × Int)) :
    ∀ a s l, replayGo (some a) s (pairedBreaks pairs ++ [⟨Act.leave, l⟩]) =
      .ok (none, s + workSum a pairs l) := by
  induction pairs with
  | nil =>
    intro a s l
    simp [pairedBreaks, replayGo, workSum]
  | cons p rest ih =>
    rcases p with ⟨b, e⟩
    intro a s l
    simp only [pairedBreaks, List.cons_append, replayGo]
    rw [if_pos (Or.inl trivial), if_pos (Or.inr trivial), List.append_eq, ih]
    simp [workSum, add_assoc]

/-- Replaying a sequence with an event of the wrong class at its replay
position raises the data-integrity failure. -/
theorem replayGo_error_of_not_consistent (entries : List Event) :
    ∀ (arrival : Option Int) (s : Int),
      consistentFrom arrival.isSome entries = false →
      replayGo arrival s entries = .error .inconsistentSequence := by
  induction entries with
  | nil =>
    intro arrival s h
    simp [consistentFrom] at h
  | cons e rest ih =>
    intro arrival s h
    rcases arrival with _ | a
    · cases h' : (e.type == Act.arrive || e.type == Act.resume)
      · have hc : ¬(e.type = Act.arrive ∨ e.type = Act.resume) := by
          simpa using h'
        simp [replayGo, hc]
      · have hc : e.type = Act.arrive ∨ e.type = Act.resume := by
          simpa using h'
        have hrest : consistentFrom true rest = false := by
          simpa [consistentFrom, h'] using h
        simp only [replayGo, if_pos hc]
        exact ih (some e.ts) s (by simpa using hrest)
    · cases h' : (e.type == Act.brk || e.type == Act.leave)
      · have hc : ¬(e.type = Act.brk ∨ e.type = Act.leave) := by
          simpa using h'
        simp [replayGo, hc]
      · have hc : e.type = Act.brk ∨ e.type = Act.leave := by
          simpa using h'
        have hrest : consistentFrom false rest = false := by
          simpa [consistentFrom, h'] using h
        simp only [replayGo, if_pos hc]
        exact ih none (s + (e.ts - a)) (by simpa using hrest)

theorem mem_sortByTs {log : List Event} {e : Event} :
    e ∈ sortByTs log ↔ e ∈ log :=
  List.mem_insertionSort tsLe

theorem sorted_sortByTs (log : List Event) :
    List.Sorted tsLe (sortByTs log) :=
  List.sorted_insertionSort tsLe log

/-- Helper: `firstArrival` is `none` exactly when no `arrive` event of the log
has its timestamp inside day `d`. -/
theorem firstArrival_eq_none {log : List Event} {d : Int} :
    firstArrival log d = none ↔
      ¬∃ e, e ∈ log ∧ e.type = Act.arrive ∧ dayStart d ≤ e.ts ∧
        e.ts < dayStart (d + 1) := by
  unfold firstArrival
  rw [List.head?_eq_none_iff, List.filter_eq_nil_iff]
  constructor
  · rintro h ⟨e, hmem, he⟩
    exact h e (mem_sortByTs.mpr hmem) (by simpa using he)
  · intro h e hmem hp
    exact h ⟨e, mem_sortByTs.mp hmem, by simpa using hp⟩

/-- The replay loop never raises the missing-arrival failure. -/
theorem replayGo_ne_noArrival (entries : List Event) :
    ∀ arrival summary,
      replayGo arrival summary entries ≠ .error .noArrivalForDate := by
  induction entries with
  | nil => intro arrival summary h; simp [replayGo] at h
  | cons e rest ih =>
    intro arrival summary h
    rcases arrival with _ | a <;>
      simp only [replayGo] at h <;>
        split at h
    · exact ih _ _ h
    · simp at h
    · exact ih _ _ h
    · simp at h

/-- The summary step after the week loop, characterised field by field
for an arbitrary final loop state. -/
theorem weekSummary_spec (st : LoopState) :
    ((weekSummary st).remaining.isSome = true ↔
      (st.daysSoFar < 5 ∨ (st.daysSoFar = 5 ∧ st.currentlyHere = true)))
    ∧ ((weekSummary st).remainingPerDay.isSome = true ↔ st.daysSoFar < 4)
    ∧ (st.daysSoFar < 5 → (weekSummary st).expectedSoFar =
      some (dailyHours * (st.daysSoFar : Int)))
    ∧ (∀ x, (weekSummary st).remaining = some x →
      x = WEEK_HOURS * 3600 - st.weekTotal)
    ∧ (weekSummary st).daysSoFar = st.daysSoFar
    ∧ (weekSummary st).currentlyHere = st.currentlyHere
    ∧ (weekSummary st).weekTotal = st.weekTotal
    ∧ (weekSummary st).rows = st.rows := by
  unfold weekSummary
  split_ifs with h1 h2 h3 h4 <;> simp_all
  omega

/-- The rows one loop iteration emits for date `d`: a day row on success,
a blank row for a failing weekday, nothing for a failing weekend day. -/
def rowsFor (log : List Event) (now : Int) (d : Int) : List Row :=
  match getWorkTimeForDay log now d with
  | .ok (_, t) => [.day d t (t - dailyHours)]
  | .error _ => if weekday d < 5 then [.absent d] else []

/-- The rows the loop emits over a list of dates. -/
def rowsOf (log : List Event) (now : Int) : List Int → List Row
  | [] => []
  | d :: ds => rowsFor log now d ++ rowsOf log now ds

/-- The open-interval flags of the dates whose day aggregation succeeds,
in order. -/
def flagsOf (log : List Event) (now : Int) : List Int → List Bool
  | [] => []
  | d :: ds =>
    (match getWorkTimeForDay log now d with
      | .ok (h, _) => [h]
      | .error _ => []) ++ flagsOf log now ds

theorem rowsFor_ok {log : List Event} {now d : Int} {hh : Bool} {t : Int}
    (h : getWorkTimeForDay log now d = .ok (hh, t)) :
    rowsFor log now d = [.day d t (t - dailyHours)] := by
  simp [rowsFor, h]

theorem rowsFor_error {log : List Event} {now d : Int} {e : Err}
    (h : getWorkTimeForDay log now d = .error e) :
    rowsFor log now d = if weekday d < 5 then [.absent d] else [] := by
  simp [rowsFor, h]

theorem weekStep_rows (log : List Event) (now : Int) (st : LoopState)
    (d : Int) : (weekStep log now st d).rows = st.rows ++ rowsFor log now d := by
  cases h : getWorkTimeForDay log now d with
  | ok p =>
    rcases p with ⟨hh, t⟩
    simp [weekStep, rowsFor, h]
  | error e =>
    simp only [weekStep, rowsFor, h]
    split <;> simp

theorem foldl_weekStep_rows (log : List Event) (now : Int)
    (ds : List Int) : ∀ st : LoopState,
    (ds.foldl (weekStep log now) st).rows = st.rows ++ rowsOf log now ds := by
  induction ds with
  | nil =>
    intro st
    simp [rowsOf]
  | cons d ds ih =>
    intro st
    rw [List.foldl_cons, ih, weekStep_rows, rowsOf, List.append_assoc]

theorem mem_rowsOf {log : List Event} {now : Int} {r : Row}
    {ds : List Int} :
    r ∈ rowsOf log now ds ↔ ∃ d ∈ ds, r ∈ rowsFor log now d := by
  induction ds with
  | nil => simp [rowsOf]
  | cons d ds ih => simp [rowsOf, ih]

theorem getLast?_cons_getD {α : Type} (l : List α) (a y : α) :
    ((a :: l).getLast?).getD y = (l.getLast?).getD a := by
  cases l with
  | nil => simp
  | cons b t =>
    rw [List.getLast?_cons_cons]
    rcases hbt : (b :: t).getLast? with _ | x
    · exact absurd hbt (by simp)
    · simp

theorem foldl_weekStep_here (log : List Event) (now : Int)
    (ds : List Int) : ∀ st : LoopState,
    (ds.foldl (weekStep log now) st).currentlyHere =
      ((flagsOf log now ds).getLast?).getD st.currentlyHere := by
  induction ds with
  | nil =>
    intro st
    simp [flagsOf]
  | cons d ds ih =>
    intro st
    rw [List.foldl_cons, ih]
    cases h : getWorkTimeForDay log now d with
    | ok p =>
      rcases p with ⟨hh, t⟩
      have hstep : (weekStep log now st d).currentlyHere = hh := by
        simp [weekStep, h]
      rw [hstep]
      show _ = ((flagsOf log now (d :: ds)).getLast?).getD st.currentlyHere
      rw [show flagsOf log now (d :: ds) = hh :: flagsOf log now ds by
        simp [flagsOf, h]]
      rw [getLast?_cons_getD]
    | error e =>
      have hstep : (weekStep log now st d).currentlyHere =
          st.currentlyHere := by
        simp only [weekStep, h]
        split <;> rfl
      rw [hstep]
      show _ = ((flagsOf log now (d :: ds)).getLast?).getD st.currentlyHere
      rw [show flagsOf log now (d :: ds) = flagsOf log now ds by
        simp [flagsOf, h]]

/-! ## Claim theorems -/

/-- C7: the Day Aggregator fails with `noArrivalForDate` if and only if
no `arrive` event has a timestamp in `[D, D+1)`; this holds both for the
entry query (`getEntries`) and for the whole day aggregation
(`getWorkTimeForDay`), and a date with zero events always fails this
way. -/
theorem c7_no_arrival_iff (log : List Event) (now d : Int) :
    (getEntries log d = .error .noArrivalForDate ↔
      ¬∃ e, e ∈ log ∧ e.type = Act.arrive ∧ dayStart d ≤ e.ts ∧
        e.ts < dayStart (d + 1))
    ∧ (getWorkTimeForDay log now d = .error .noArrivalForDate ↔
      ¬∃ e, e ∈ log ∧ e.type = Act.arrive ∧ dayStart d ≤ e.ts ∧
        e.ts < dayStart (d + 1))
    ∧ getEntries ([] : List Event) d = .error .noArrivalForDate := by
  have hentries : getEntries log d = .error .noArrivalForDate ↔
      firstArrival log d = none := by
    unfold getEntries
    rcases h : firstArrival log d with _ | res <;> simp
  have hday : getWorkTimeForDay log now d = .error .noArrivalForDate ↔
      getEntries log d = .error .noArrivalForDate := by
    rcases h : getEntries log d with e | entries
    · simp [getWorkTimeForDay, h]
    · rcases h' : replayGo none 0 entries with e' | ⟨arrival, summary⟩
      · have hne := replayGo_ne_noArrival entries none 0
        rw [h'] at hne
        simp only [getWorkTimeForDay, h, h']
        constructor
        · intro hh
          injection hh with hh'
          exact absurd (by rw [hh']) hne
        · intro hh
          exact absurd hh (by simp)
      · rcases arrival with _ | a <;> simp [getWorkTimeForDay, h, h']
  exact ⟨hentries.trans firstArrival_eq_none,
    (hday.trans hentries).trans firstArrival_eq_none, rfl⟩

/-- C6: when a day's replayed events are an arrival, any finite number of
correctly paired (BreakStart, BreakEnd) pairs, and a final leave, the Day
Aggregator returns exactly the sum of the closed work intervals with the
break spans excluded (and reports not-present); and when the replayed
events contain an event of the wrong class at its replay position, it
raises `inconsistentSequence` instead of returning a total. -/
theorem c6_day_total_and_inconsistency (log : List Event) (now d : Int) :
    (∀ a pairs l,
      getEntries log d =
        .ok (⟨Act.arrive, a⟩ :: (pairedBreaks pairs ++ [⟨Act.leave, l⟩])) →
      getWorkTimeForDay log now d = .ok (false, workSum a pairs l))
    ∧ (∀ entries, getEntries log d = .ok entries →
      consistentFrom false entries = false →
      getWorkTimeForDay log now d = .error .inconsistentSequence) := by
  constructor
  · intro a pairs l h
    have hr : replayGo none 0
        (⟨Act.arrive, a⟩ :: (pairedBreaks pairs ++ [⟨Act.leave, l⟩])) =
        .ok (none, workSum a pairs l) := by
      simp only [replayGo, if_pos (Or.inl rfl)]
      simpa using replayGo_closed pairs a 0 l
    simp [getWorkTimeForDay, h, hr]
  · intro entries h hbad
    have hr := replayGo_error_of_not_consistent entries none 0
      (by simpa using hbad)
    simp [getWorkTimeForDay, h, hr]

/-- Witness for C6: the spec's worked example (Arrive 08:00, BreakStart
12:00, BreakEnd 13:00, Leave 17:00 on day 0) totals 8 hours and is not
currently present; an unpaired break before the leave raises
`inconsistentSequence`. -/
theorem c6_witness :
    getWorkTimeForDay
        [⟨Act.arrive, 28800⟩, ⟨Act.brk, 43200⟩, ⟨Act.resume, 46800⟩,
          ⟨Act.leave, 61200⟩] 99999 0 = .ok (false, 28800)
    ∧ getWorkTimeForDay
        [⟨Act.arrive, 100⟩, ⟨Act.brk, 200⟩, ⟨Act.leave, 300⟩] 999 0 =
      .error .inconsistentSequence := by
  constructor
  · have h := (c6_day_total_and_inconsistency
      [⟨Act.arrive, 28800⟩, ⟨Act.brk, 43200⟩, ⟨Act.resume, 46800⟩,
        ⟨Act.leave, 61200⟩] 99999 0).1 28800 [(43200, 46800)] 61200 rfl
    simpa [workSum] using h
  · exact (c6_day_total_and_inconsistency
      [⟨Act.arrive, 100⟩, ⟨Act.brk, 200⟩, ⟨Act.leave, 300⟩] 999 0).2
      [⟨Act.arrive, 100⟩, ⟨Act.brk, 200⟩, ⟨Act.leave, 300⟩] rfl rfl

/-- C3 counterexample: with an arrival at timestamp 10 of day 0 and a
`leave` event exactly at local midnight of day 1 (timestamp 86400 =
`dayStart 1`), `getEntries` returns the midnight event as well, although
the claim's half-open range `[thatArrival, D+1)` would exclude it. -/
theorem c3_counterexample :
    (getEntries [⟨Act.arrive, 10⟩, ⟨Act.leave, 86400⟩] 0).toOption =
      some [⟨Act.arrive, 10⟩, ⟨Act.leave, 86400⟩]
    ∧ (getEntries [⟨Act.arrive, 10⟩, ⟨Act.leave, 86400⟩] 0).toOption ≠
      some (([⟨Act.arrive, 10⟩, ⟨Act.leave, 86400⟩] : List Event).filter
        (fun e => decide (10 ≤ e.ts ∧ e.ts < dayStart (0 + 1))))
    ∧ ¬((86400 : Int) < dayStart (0 + 1)) := by
  refine ⟨rfl, by decide, by decide⟩

/-- C3 (amended): the set of events the Day Aggregator replays for a date
`D` with an earliest arrival is exactly the events with timestamp in the
closed range `[thatArrival, D+1]` — the source's second query uses an
inclusive upper bound, so an event at local midnight of `D+1` is included
— returned in ascending timestamp order. -/
theorem c3_amended_replayed_range (log : List Event) (d : Int)
    (entries : List Event) (h : getEntries log d = .ok entries) :
    List.Sorted tsLe entries
    ∧ ∃ a, a ∈ log ∧ a.type = Act.arrive ∧ dayStart d ≤ a.ts ∧
        a.ts < dayStart (d + 1)
      ∧ (∀ e ∈ log, e.type = Act.arrive → dayStart d ≤ e.ts →
          e.ts < dayStart (d + 1) → a.ts ≤ e.ts)
      ∧ (∀ e, e ∈ entries ↔
          e ∈ log ∧ a.ts ≤ e.ts ∧ e.ts ≤ dayStart (d + 1)) := by
  unfold getEntries at h
  rcases hfa : firstArrival log d with _ | res
  · rw [hfa] at h
    exact absurd h (by simp)
  · rw [hfa] at h
    have hent : entries = (sortByTs log).filter
        (fun e => decide (res.ts ≤ e.ts ∧ e.ts ≤ dayStart (d + 1))) := by
      injection h with h'
      exact h'.symm
    have hsortedEnt : List.Sorted tsLe entries := by
      rw [hent]
      exact (sorted_sortByTs log).filter _
    unfold firstArrival at hfa
    rcases hf : (sortByTs log).filter (fun e =>
        decide (e.type = Act.arrive ∧ dayStart d ≤ e.ts ∧
          e.ts < dayStart (d + 1))) with _ | ⟨r, tl⟩
    · rw [hf] at hfa
      simp at hfa
    · rw [hf] at hfa
      have hres : r = res := by simpa using hfa
      rw [hres] at hf
      have hrmem : res ∈ (sortByTs log).filter (fun e =>
          decide (e.type = Act.arrive ∧ dayStart d ≤ e.ts ∧
            e.ts < dayStart (d + 1))) := by
        rw [hf]
        exact List.mem_cons_self res tl
      have hresFacts := List.mem_filter.mp hrmem
      have hresLog : res ∈ log := mem_sortByTs.mp hresFacts.1
      have hresProps : res.type = Act.arrive ∧ dayStart d ≤ res.ts ∧
          res.ts < dayStart (d + 1) := by
        simpa using hresFacts.2
      have hmin : ∀ e ∈ log, e.type = Act.arrive → dayStart d ≤ e.ts →
          e.ts < dayStart (d + 1) → res.ts ≤ e.ts := by
        intro e hel het hlo hhi
        have hememf : e ∈ (sortByTs log).filter (fun e =>
            decide (e.type = Act.arrive ∧ dayStart d ≤ e.ts ∧
              e.ts < dayStart (d + 1))) :=
          List.mem_filter.mpr ⟨mem_sortByTs.mpr hel, by simp [het, hlo, hhi]⟩
        rw [hf] at hememf
        rcases List.mem_cons.mp hememf with rfl | hetl
        · exact le_refl _
        · have hsf : List.Sorted tsLe ((sortByTs log).filter (fun e =>
              decide (e.type = Act.arrive ∧ dayStart d ≤ e.ts ∧
                e.ts < dayStart (d + 1)))) :=
            (sorted_sortByTs log).filter _
          rw [hf] at hsf
          exact (List.sorted_cons.mp hsf).1 e hetl
      refine ⟨hsortedEnt, res, hresLog, hresProps.1, hresProps.2.1,
        hresProps.2.2, hmin, ?_⟩
      intro e
      rw [hent]
      simp [List.mem_filter, mem_sortByTs, and_assoc]

/-- Witness for C3 (amended): the amended range characterization applied
to the two-event log of the counterexample. -/
theorem c3_amended_witness :
    List.Sorted tsLe [⟨Act.arrive, 10⟩, ⟨Act.leave, 86400⟩] :=
  (c3_amended_replayed_range [⟨Act.arrive, 10⟩, ⟨Act.leave, 86400⟩] 0
    [⟨Act.arrive, 10⟩, ⟨Act.leave, 86400⟩] rfl).1

/-- C4 (code slip in the source): the day command's report does not
describe the single requested date `D = today + offset`.  Day 9 has a
complete record (arrival 806400, leave 838800, i.e. 9 h) while today is
day 10.  First input: today has no events at all, and `day -1` aborts
with `noArrivalForDate` (for today!) instead of reporting day 9.  Second
input: today has an open arrival one hour old, and the report for day 9
carries today's presence flag `true` and today's total 3600 s, while day
9's own aggregation is `(false, 32400)`. -/
theorem c4_day_report_uses_today :
    ((getEntries [⟨Act.arrive, 806400⟩, ⟨Act.leave, 838800⟩] 9).toOption =
      some [⟨Act.arrive, 806400⟩, ⟨Act.leave, 838800⟩]
    ∧ dayStatistics [⟨Act.arrive, 806400⟩, ⟨Act.leave, 838800⟩]
        900000 10 (-1) = .error .noArrivalForDate)
    ∧ (dayStatistics
        [⟨Act.arrive, 806400⟩, ⟨Act.leave, 838800⟩, ⟨Act.arrive, 867600⟩]
        871200 10 (-1) =
      .ok ⟨9, [⟨Act.arrive, 806400⟩, ⟨Act.leave, 838800⟩], true, 3600⟩
    ∧ getWorkTimeForDay
        [⟨Act.arrive, 806400⟩, ⟨Act.leave, 838800⟩, ⟨Act.arrive, 867600⟩]
        871200 9 = .ok (false, 32400)) :=
  ⟨⟨rfl, rfl⟩, rfl, rfl⟩

/-- C1: each of the four recording operations succeeds exactly when the
kind of the most recent event (none for an empty log) is in its legal
set, and then appends exactly one event of the corresponding kind;
otherwise it fails with the corresponding signal: StartDay
(`startTracking`) needs none/`leave` and appends `arrive` else
`haveNotLeft` (AlreadyPresent); StartBreak (`suspendTracking`) needs
`arrive`/`resume` and appends `brk` else `notWorking`; EndBreak
(`resumeTracking`) needs `brk` and appends `resume` else `notBreaking`;
EndDay (`endTracking`) needs `arrive`/`resume` and appends `leave` else
`notWorking`. -/
theorem c1_state_machine_transitions (log : List Event) (now : Int) :
    (startTracking log now =
      if getLastType log = none ∨ getLastType log = some Act.leave then
        (log ++ [⟨Act.arrive, now⟩], .ok ())
      else (log, .error .haveNotLeft))
    ∧ (suspendTracking log now =
      if getLastType log = some Act.arrive ∨ getLastType log = some Act.resume
      then (log ++ [⟨Act.brk, now⟩], .ok ())
      else (log, .error .notWorking))
    ∧ (resumeTracking log now =
      if getLastType log = some Act.brk then
        (log ++ [⟨Act.resume, now⟩], .ok ())
      else (log, .error .notBreaking))
    ∧ (endTracking log now =
      if getLastType log = some Act.arrive ∨ getLastType log = some Act.resume
      then (log ++ [⟨Act.leave, now⟩], .ok ())
      else (log, .error .notWorking)) := by
  refine ⟨?_, ?_, ?_, ?_⟩ <;>
    rcases hg : getLastType log with _ | k <;>
      (try cases k) <;>
        simp [startTracking, suspendTracking, resumeTracking, endTracking,
          addEntry, hg]

/-- C5: a recording operation rejected by the state-machine validation
leaves the event log completely unchanged. -/
theorem c5_rejection_leaves_log_unchanged (log : List Event) (now : Int) :
    (∀ e, (startTracking log now).2 = .error e →
      (startTracking log now).1 = log)
    ∧ (∀ e, (suspendTracking log now).2 = .error e →
      (suspendTracking log now).1 = log)
    ∧ (∀ e, (resumeTracking log now).2 = .error e →
      (resumeTracking log now).1 = log)
    ∧ (∀ e, (endTracking log now).2 = .error e →
      (endTracking log now).1 = log) := by
  refine ⟨?_, ?_, ?_, ?_⟩ <;>
    intro e <;>
      simp only [startTracking, suspendTracking, resumeTracking,
        endTracking] <;>
        split <;> simp

/-- Witness for C5: concrete rejected calls for each of the four
operations, the log coming out unchanged. -/
theorem c5_witness :
    (startTracking [⟨Act.arrive, 0⟩] 1).1 = [⟨Act.arrive, 0⟩]
    ∧ (suspendTracking [] 0).1 = []
    ∧ (resumeTracking [] 0).1 = []
    ∧ (endTracking [] 0).1 = [] :=
  ⟨(c5_rejection_leaves_log_unchanged [⟨Act.arrive, 0⟩] 1).1 .haveNotLeft rfl,
   (c5_rejection_leaves_log_unchanged [] 0).2.1 .notWorking rfl,
   (c5_rejection_leaves_log_unchanged [] 0).2.2.1 .notBreaking rfl,
   (c5_rejection_leaves_log_unchanged [] 0).2.2.2 .notWorking rfl⟩

/-- C8: after the week loop, the remaining figure
`WEEK_HOURS − weekTotal` is reported iff `daysSoFar < 5`, or
`daysSoFar = 5` and the user is currently still present; the per-day
figure is additionally reported iff `daysSoFar < 4`; and when
`daysSoFar < 5` the expected-so-far figure equals
`dailyQuota * daysSoFar`. -/
theorem c8_week_summary_gates (log : List Event) (now today offset : Int) :
    ((weekStatistics log now today offset).remaining.isSome = true ↔
      ((weekStatistics log now today offset).daysSoFar < 5 ∨
        ((weekStatistics log now today offset).daysSoFar = 5 ∧
          (weekStatistics log now today offset).currentlyHere = true)))
    ∧ ((weekStatistics log now today offset).remainingPerDay.isSome = true ↔
      (weekStatistics log now today offset).daysSoFar < 4)
    ∧ ((weekStatistics log now today offset).daysSoFar < 5 →
      (weekStatistics log now today offset).expectedSoFar = some (dailyHours *
        ((weekStatistics log now today offset).daysSoFar : Int)))
    ∧ (∀ x, (weekStatistics log now today offset).remaining = some x →
      x = WEEK_HOURS * 3600 -
        (weekStatistics log now today offset).weekTotal) := by
  have hst : weekStatistics log now today offset =
      weekSummary ((weekDates (startOfWeek today offset)
        (endOfWeek today offset)).foldl (weekStep log now)
        ⟨0, 0, 0, false, []⟩) := rfl
  obtain ⟨k1, k2, k3, k4, k5, k6, k7, -⟩ :=
    weekSummary_spec ((weekDates (startOfWeek today offset)
      (endOfWeek today offset)).foldl (weekStep log now) ⟨0, 0, 0, false, []⟩)
  rw [hst]
  refine ⟨?_, ?_, ?_, ?_⟩
  · rw [k5, k6]
    exact k1
  · rw [k5]
    exact k2
  · rw [k5]
    exact k3
  · rw [k7]
    exact k4

/-- Witness for C8: on an empty log for the week of day 0 (no day
counted), the expected figure and the per-day remaining figure are
produced. -/
theorem c8_witness :
    (weekStatistics [] 0 0 0).expectedSoFar = some (dailyHours *
      ((weekStatistics [] 0 0 0).daysSoFar : Int))
    ∧ (weekStatistics [] 0 0 0).remainingPerDay.isSome = true :=
  ⟨(c8_week_summary_gates [] 0 0 0).2.2.1 (by decide),
   ((c8_week_summary_gates [] 0 0 0).2.1).mpr (by decide)⟩

/-- C9: whenever the week aggregation computes the per-day remaining
figure, the divisor `5 − daysSoFar` is at least 2 — in particular never
zero — for every event log and every week offset. -/
theorem c9_divisor_at_least_two (log : List Event) (now today offset : Int) :
    (weekStatistics log now today offset).remainingPerDay.isSome = true →
      2 ≤ 5 - ((weekStatistics log now today offset).daysSoFar : Int)
      ∧ 5 - ((weekStatistics log now today offset).daysSoFar : Int) ≠ 0 := by
  intro h
  have hst : weekStatistics log now today offset =
      weekSummary ((weekDates (startOfWeek today offset)
        (endOfWeek today offset)).foldl (weekStep log now)
        ⟨0, 0, 0, false, []⟩) := rfl
  obtain ⟨-, k2, -, -, k5, -, -, -⟩ :=
    weekSummary_spec ((weekDates (startOfWeek today offset)
      (endOfWeek today offset)).foldl (weekStep log now) ⟨0, 0, 0, false, []⟩)
  rw [hst] at h ⊢
  rw [k5]
  have h4 := k2.mp h
  omega

/-- Witness for C9: the empty log over the week of day 0 does compute a
per-day figure, and its divisor is nonzero. -/
theorem c9_witness :
    2 ≤ 5 - ((weekStatistics [] 0 0 0).daysSoFar : Int)
    ∧ 5 - ((weekStatistics [] 0 0 0).daysSoFar : Int) ≠ 0 :=
  c9_divisor_at_least_two [] 0 0 0 (by decide)

/-- C2 counterexample: with two `arrive` events on day 0 the day
aggregation of day 0 raises the data-integrity failure
`inconsistentSequence`, yet the week command over that week does not
abort: the loop's bare `except ProgramAbortError` downgrades it to the
absent-day outcome (a blank row, the day not counted). -/
theorem c2_counterexample :
    getWorkTimeForDay [⟨Act.arrive, 100⟩, ⟨Act.arrive, 200⟩] 999 0 =
      .error .inconsistentSequence
    ∧ (weekStatistics [⟨Act.arrive, 100⟩, ⟨Act.arrive, 200⟩] 999 0 0).rows =
      [.absent 0]
    ∧ (weekStatistics [⟨Act.arrive, 100⟩, ⟨Act.arrive, 200⟩] 999 0 0).daysSoFar
      = 0 :=
  ⟨rfl, rfl, rfl⟩

/-- C2 (amended): inside the week loop every failure kind raised by the
day aggregation for a date of the week — `noArrivalForDate` and the
data-integrity fault `inconsistentSequence` alike — is downgraded to the
non-fatal absent-day outcome: a blank row for a weekday, nothing for a
weekend day, and never a day row; no failure propagates out of the
loop. -/
theorem c2_amended_all_failures_downgraded (log : List Event)
    (now today offset d : Int) (e : Err)
    (hd : d ∈ weekDates (startOfWeek today offset) (endOfWeek today offset))
    (he : getWorkTimeForDay log now d = .error e) :
    (weekday d < 5 → Row.absent d ∈ (weekStatistics log now today offset).rows)
    ∧ ∀ w delta,
      Row.day d w delta ∉ (weekStatistics log now today offset).rows := by
  have hrows : (weekStatistics log now today offset).rows =
      rowsOf log now (weekDates (startOfWeek today offset)
        (endOfWeek today offset)) := by
    have hst : weekStatistics log now today offset =
        weekSummary ((weekDates (startOfWeek today offset)
          (endOfWeek today offset)).foldl (weekStep log now)
          ⟨0, 0, 0, false, []⟩) := rfl
    rw [hst, (weekSummary_spec _).2.2.2.2.2.2.2,
      foldl_weekStep_rows]
    simp
  constructor
  · intro hwd
    rw [hrows]
    exact mem_rowsOf.mpr ⟨d, hd, by simp [rowsFor, he, hwd]⟩
  · intro w delta hmem
    rw [hrows] at hmem
    obtain ⟨d', hd', hr⟩ := mem_rowsOf.mp hmem
    cases h' : getWorkTimeForDay log now d' with
    | ok p =>
      rcases p with ⟨hh, t⟩
      rw [rowsFor_ok h'] at hr
      simp only [List.mem_singleton, Row.day.injEq] at hr
      obtain ⟨rfl, -, -⟩ := hr
      rw [he] at h'
      exact absurd h' (by simp)
    | error e' =>
      rw [rowsFor_error h'] at hr
      split at hr <;> simp at hr

/-- Witness for C2 (amended): the counterexample input, where the
inconsistent day 0 is turned into a blank row. -/
theorem c2_amended_witness :
    Row.absent 0 ∈
      (weekStatistics [⟨Act.arrive, 100⟩, ⟨Act.arrive, 200⟩] 999 0 0).rows :=
  (c2_amended_all_failures_downgraded
    [⟨Act.arrive, 100⟩, ⟨Act.arrive, 200⟩] 999 0 0 0 .inconsistentSequence
    (by decide) rfl).1 (by decide)

/-- C10: the currently-present flag that gates the remaining section is
the open-interval flag of the last date in the iterated range whose day
aggregation succeeded (`false` if none succeeded), not a value
recomputed for today; consequently, for a fully past week whose last
worked day (day 11, a Friday) has no closing leave inside that day, the
remaining section is shown although the log's most recent event is a
`leave` (the user is not present now). -/
theorem c10_week_present_flag :
    (∀ (log : List Event) (now today offset : Int),
      (weekStatistics log now today offset).currentlyHere =
        ((flagsOf log now (weekDates (startOfWeek today offset)
          (endOfWeek today offset))).getLast?).getD false)
    ∧ getLastType
        [⟨Act.arrive, 633600⟩, ⟨Act.leave, 662400⟩, ⟨Act.arrive, 720000⟩,
          ⟨Act.leave, 748800⟩, ⟨Act.arrive, 806400⟩, ⟨Act.leave, 835200⟩,
          ⟨Act.arrive, 892800⟩, ⟨Act.leave, 921600⟩, ⟨Act.arrive, 979200⟩,
          ⟨Act.leave, 1159200⟩] = some Act.leave
    ∧ (weekStatistics
        [⟨Act.arrive, 633600⟩, ⟨Act.leave, 662400⟩, ⟨Act.arrive, 720000⟩,
          ⟨Act.leave, 748800⟩, ⟨Act.arrive, 806400⟩, ⟨Act.leave, 835200⟩,
          ⟨Act.arrive, 892800⟩, ⟨Act.leave, 921600⟩, ⟨Act.arrive, 979200⟩,
          ⟨Act.leave, 1159200⟩] 1242000 14 (-1)).daysSoFar = 5
    ∧ (weekStatistics
        [⟨Act.arrive, 633600⟩, ⟨Act.leave, 662400⟩, ⟨Act.arrive, 720000⟩,
          ⟨Act.leave, 748800⟩, ⟨Act.arrive, 806400⟩, ⟨Act.leave, 835200⟩,
          ⟨Act.arrive, 892800⟩, ⟨Act.leave, 921600⟩, ⟨Act.arrive, 979200⟩,
          ⟨Act.leave, 1159200⟩] 1242000 14 (-1)).currentlyHere = true
    ∧ (weekStatistics
        [⟨Act.arrive, 633600⟩, ⟨Act.leave, 662400⟩, ⟨Act.arrive, 720000⟩,
          ⟨Act.leave, 748800⟩, ⟨Act.arrive, 806400⟩, ⟨Act.leave, 835200⟩,
          ⟨Act.arrive, 892800⟩, ⟨Act.leave, 921600⟩, ⟨Act.arrive, 979200⟩,
          ⟨Act.leave, 1159200⟩] 1242000 14 (-1)).remaining.isSome = true := by
  refine ⟨?_, rfl, rfl, rfl, rfl⟩
  intro log now today offset
  have hst : weekStatistics log now today offset =
      weekSummary ((weekDates (startOfWeek today offset)
        (endOfWeek today offset)).foldl (weekStep log now)
        ⟨0, 0, 0, false, []⟩) := rfl
  rw [hst, (weekSummary_spec _).2.2.2.2.2.1, foldl_weekStep_here]

end Timetrack
